import Mathlib

/-!
Verification of `create_anki_cards.py` from podcast2Anki: a shallow embedding
of the resumable batch-job orchestration and the numbered-list output parser,
together with proofs settling the frozen claims about them.

Strings are modelled over their character lists (`String.toList`); the ASCII
fragment of Python's `str.strip`, `\d` and `\s` is embedded, which covers
every input exercised here.
-/

/-- Python whitespace characters recognised by `str.strip()` and the regex
class `\s`, restricted to ASCII (source: `create_anki_cards.py`, the parser in
`process_batch_results` works line by line on stripped lines). -/
def pySpace (c : Char) : Bool :=
  c = ' ' || c = '\t' || c = '\n' || c = '\r' || c = '\x0b' || c = '\x0c'

/-- Embedding of Python `str.strip()` on a line given as a character list:
drop whitespace from both ends. -/
def pyStripL (l : List Char) : List Char :=
  ((l.dropWhile pySpace).reverse.dropWhile pySpace).reverse

/-- Embedding of Python `content.split("\n")`: split at every newline,
keeping empty segments (`""` splits to `[""]`, `"a\n"` to `["a", ""]`). -/
def splitNL : List Char → List (List Char)
  | [] => [[]]
  | c :: rest =>
    if c = '\n' then [] :: splitNL rest
    else
      match splitNL rest with
      | [] => [[c]]
      | l :: ls => (c :: l) :: ls

/-- Embedding of Python `"\n".join(parts)`. -/
def joinNL : List (List Char) → List Char
  | [] => []
  | [l] => l
  | l :: ls => l ++ '\n' :: joinNL ls

/-- Embedding of `line.startswith('-')` on an (already stripped) line. -/
def startsWithDash : List Char → Bool
  | [] => false
  | c :: _ => c = '-'

/-- Embedding of `re.compile(r'^\d+\.\s+(.*)').match(line)` on a stripped
line, returning `match.group(1)` on success: a nonempty maximal digit run,
a literal period, at least one whitespace character, then the remainder
(the greedy `\s+` consumes the whole whitespace run, so the group starts at
the first non-whitespace character). -/
def matchNumL (l : List Char) : Option (List Char) :=
  let ds := l.takeWhile Char.isDigit
  let r1 := l.dropWhile Char.isDigit
  if ds = [] then none
  else
    match r1 with
    | '.' :: r2 =>
      if r2.takeWhile pySpace = [] then none
      else some (r2.dropWhile pySpace)
    | _ => none

/-- State of the inner line loop of `process_batch_results`
(src/create_anki_cards.py lines 242-266): the finalized `points` (each already
joined with newlines, as Python appends `"\n".join(current_point)`), the
accumulator `current_point`, the `is_first_subitem` flag, and the Python
variable `content` (rebound to `match.group(1).strip()` at every numbered
line), called `cv` here. -/
structure SegSt where
  points : List (List Char)
  cur : List (List Char)
  flag : Bool
  cv : List Char
deriving DecidableEq

/-- One iteration of the line loop of `process_batch_results` (lines 245-266):
strip the line; skip blanks; a numbered line flushes a nonempty accumulator
into `points` and opens a new point with the matched text, setting the
first-sub-item flag; a dash line is appended, preceded by one synthetic blank
line if the flag is set (which clears it); any other line is appended
verbatim. -/
def segLine (st : SegSt) (raw : List Char) : SegSt :=
  let line := pyStripL raw
  if line = [] then st
  else
    match matchNumL line with
    | some g =>
      let c := pyStripL g
      { points := if st.cur = [] then st.points else st.points ++ [joinNL st.cur],
        cur := [c], flag := true, cv := c }
    | none =>
      if startsWithDash line then
        if st.flag then { st with cur := st.cur ++ [[], line], flag := false }
        else { st with cur := st.cur ++ [line] }
      else { st with cur := st.cur ++ [line] }

/-- The full line loop: a left fold of `segLine` over the lines. After the
loop the source stores `points` and silently discards the still-open
accumulator `cur` (there is no flush after the loop in the source). -/
def segFold (st : SegSt) (lines : List (List Char)) : SegSt :=
  lines.foldl segLine st

/-- Segmenting one record's model content, exactly as the source does for a
status-200 record: fold the line loop over `content.split("\n")` starting
from an empty accumulator, the carried `is_first_subitem` flag, and the
Python `content` variable bound to the choice content. -/
def segmentL (flag : Bool) (content : List Char) : SegSt :=
  segFold ⟨[], [], flag, content⟩ (splitNL content)

/-- The point sequence the parser produces for one record content, as
strings (the value stored under `result[custom_id]`). -/
def parsePoints (flag : Bool) (content : String) : List String :=
  (segmentL flag content.toList).points.map String.mk

/-- One line of the batch-output artifact after JSON decoding:
`custom_id`, `response.status_code`, and the `message.content` of each
element of `response.body.choices`. -/
structure BatchRecord where
  custom_id : String
  status_code : Nat
  choices : List String
deriving DecidableEq

/-- State threaded through the record loop of `process_batch_results`:
the `result` dict, the `is_first_subitem` flag (initialized once, before the
record loop, at line 222 of the source — so it carries over between records),
and the Python variable `content`, unbound (`none`) until first assigned. -/
structure PBState where
  result : List (String × List String)
  flag : Bool
  cv : Option (List Char)
deriving DecidableEq

/-- Python dict assignment `d[k] = v` on an association list: replace the
value in place if the key exists, else append at the end (insertion order). -/
def dictInsert (k : String) (v : List String) : List (String × List String) → List (String × List String)
  | [] => [(k, v)]
  | (k2, v2) :: rest => if k2 = k then (k, v) :: rest else (k2, v2) :: dictInsert k v rest

/-- Python dict lookup on the association-list model (first match). -/
def lookupD (k : String) : List (String × List String) → Option (List String)
  | [] => none
  | (k2, v) :: rest => if k2 = k then some v else lookupD k rest

/-- Python `d.update(d2)`: insert every entry of `d2` into `d` in order. -/
def dictUpdate (d d2 : List (String × List String)) : List (String × List String) :=
  d2.foldl (fun acc kv => dictInsert kv.1 kv.2 acc) d

/-- The loop `for choice in choices: content = choice...content` rebinds
`content` at each iteration; afterwards it holds the last choice's content,
or its previous binding when `choices` is empty. -/
def lastChoiceContent (cv : Option (List Char)) (choices : List String) : Option (List Char) :=
  choices.foldl (fun _ c => some c.toList) cv

/-- Processing one line of the batch-output file (lines 226-271 of the
source). `none` models a line that fails `json.loads` and is logged and
skipped. A record whose `status_code` is not 200 is skipped entirely (the
whole parsing block sits inside the `== 200` branch). For a status-200
record, the choices loop rebinds `content`; if it was never bound the source
raises an uncaught `NameError`, modelled as `Except.error`. Otherwise the
content is segmented and stored under `custom_id`. -/
def processLine (st : PBState) (rec : Option BatchRecord) : Except String PBState :=
  match rec with
  | none => .ok st
  | some r =>
    if r.status_code = 200 then
      match lastChoiceContent st.cv r.choices with
      | none => .error "NameError: content is not defined"
      | some content =>
        let fin := segmentL st.flag content
        .ok { result := dictInsert r.custom_id (fin.points.map String.mk) st.result,
              flag := fin.flag, cv := some fin.cv }
    else .ok st

/-- The record loop of `process_batch_results`: process the decoded lines in
order, threading the parser state. -/
def processRecords : PBState → List (Option BatchRecord) → Except String PBState
  | st, [] => .ok st
  | st, r :: rest =>
    match processLine st r with
    | .error e => .error e
    | .ok st2 => processRecords st2 rest

/-- `process_batch_results` (src/create_anki_cards.py lines 211-273) on the
decoded lines of the batch-output file: returns the dict mapping each
processed record's `custom_id` to its parsed point list. -/
def process_batch_results (recs : List (Option BatchRecord)) : Except String (List (String × List String)) :=
  match processRecords ⟨[], false, none⟩ recs with
  | .error e => .error e
  | .ok st => .ok st.result

/-- C1: the spec's round-trip example fails on the code. For a status-200
record with content `"1. Point A\n- ev1\n- ev2\n2. Point B\n"` the parser
produces exactly ONE point — `"Point A\n\n- ev1\n- ev2"` — not two: the
point opened by `"2. Point B"` is still in the accumulator when the line
loop ends, and the source never flushes the accumulator after the loop, so
`"Point B"` is dropped. -/
theorem c1_roundtrip_eval :
    process_batch_results [some ⟨"ep-1", 200, ["1. Point A\n- ev1\n- ev2\n2. Point B\n"]⟩]
      = .ok [("ep-1", ["Point A\n\n- ev1\n- ev2"])] := by
  rfl

/-- C2: the "no numbered point is ever dropped" invariant fails on the code.
The content `"1. Sole point\n"` consists of a single line matching the
`<integer>. <text>` grammar (second conjunct), yet the parser yields zero
points for the record: the point opened by the last numbered line is never
finalized when input ends. -/
theorem c2_last_point_dropped :
    process_batch_results [some ⟨"ep-2", 200, ["1. Sole point\n"]⟩]
        = .ok [("ep-2", [])]
      ∧ matchNumL (pyStripL ("1. Sole point").toList) = some ("Sole point").toList := by
  exact ⟨rfl, rfl⟩

/-- C3 counterexample: non-blank lines preceding the first numbered line are
NOT discarded. For content `"preamble\n1. Alpha\n2. Beta\n"` the parser
output is `["preamble", "Alpha"]`: the preamble line accumulates and is
flushed as a point of its own when the first numbered line begins. -/
theorem c3_preamble_counterexample :
    parsePoints false "preamble\n1. Alpha\n2. Beta\n" = ["preamble", "Alpha"]
      ∧ "preamble" ∈ parsePoints false "preamble\n1. Alpha\n2. Beta\n" := by
  exact ⟨rfl, by decide⟩

/-- C4 counterexample: the parser is not self-contained per record. In one
batch-output file, records `"a"` and `"c"` carry the identical content
`"- x\n1. Q\n2. R"` yet parse to different point sequences, because record
`"b"` (content `"1. P"`) leaves the `is_first_subitem` flag set, which makes
record `"c"` receive a synthetic blank line before its leading dash line. -/
theorem c4_state_leak_counterexample :
    process_batch_results
        [some ⟨"a", 200, ["- x\n1. Q\n2. R"]⟩,
         some ⟨"b", 200, ["1. P"]⟩,
         some ⟨"c", 200, ["- x\n1. Q\n2. R"]⟩]
      = .ok [("a", ["- x", "Q"]), ("b", []), ("c", ["\n- x", "Q"])]
      ∧ (["- x", "Q"] : List String) ≠ ["\n- x", "Q"] := by
  exact ⟨rfl, by decide⟩

/-- One observation of the remote batch object, as returned by
`client.batches.retrieve` in `poll_batch_status`: its `status` string and its
`output_file_id`. -/
structure BatchObj where
  status : String
  output_file_id : String
deriving DecidableEq

/-- Outcome of the polling loop over a finite list of observed statuses:
`ok` models the `return batch.output_file_id` on `"completed"`, `fatal` the
`RuntimeError` on `"failed"`/`"cancelled"`, and `polling` means every
observed status was non-terminal and the loop is still waiting (the source
loops forever, with no retry bound). -/
inductive PollOutcome where
  | ok (locator : String)
  | fatal (msg : String)
  | polling
deriving DecidableEq

/-- `poll_batch_status` (src/create_anki_cards.py lines 165-177) over the
sequence of statuses the remote reports, one per query. The first component
counts the total seconds slept (`time.sleep(10)` after each non-terminal
status). -/
def poll_batch_status (batchId : String) : List BatchObj → Nat × PollOutcome
  | [] => (0, .polling)
  | b :: rest =>
    if b.status = "completed" then (0, .ok b.output_file_id)
    else if b.status = "failed" ∨ b.status = "cancelled" then
      (0, .fatal ("Batch " ++ batchId ++ " failed with status: " ++ b.status))
    else
      let r := poll_batch_status batchId rest
      (10 + r.1, r.2)

/-- A status is terminal for the poller when it is `"completed"`,
`"failed"` or `"cancelled"`; every other status makes the loop sleep and
re-query. -/
def isTerminalStatus (s : String) : Bool :=
  s == "completed" || s == "failed" || s == "cancelled"

/-- C5: the poller contract. For every status sequence, the loop sleeps a
fixed 10 seconds per non-terminal observation (so an all-non-terminal
sequence of any length leaves it still polling — no retry bound or local
timeout), returns the output file locator exactly when the first terminal
status is `"completed"`, and raises the `RuntimeError` message carrying the
job id and the terminal status exactly when the first terminal status is
`"failed"` or `"cancelled"` — never a locator in that case. -/
theorem c5_poller_contract (bid : String) (obs : List BatchObj) :
    poll_batch_status bid obs =
      (10 * (obs.takeWhile (fun b => !(isTerminalStatus b.status))).length,
       match obs.dropWhile (fun b => !(isTerminalStatus b.status)) with
       | [] => PollOutcome.polling
       | b :: _ =>
         if b.status = "completed" then PollOutcome.ok b.output_file_id
         else PollOutcome.fatal ("Batch " ++ bid ++ " failed with status: " ++ b.status)) := by
  induction obs with
  | nil => rfl
  | cons b rest ih =>
    by_cases hc : b.status = "completed"
    · simp [poll_batch_status, hc, List.takeWhile_cons, List.dropWhile_cons, isTerminalStatus]
    · by_cases hf : b.status = "failed" ∨ b.status = "cancelled"
      · have ht : isTerminalStatus b.status = true := by
          rcases hf with h | h <;> simp [isTerminalStatus, h]
        simp [poll_batch_status, hc, hf, List.takeWhile_cons, List.dropWhile_cons, ht]
      · have hf1 : b.status ≠ "failed" := fun h => hf (Or.inl h)
        have hf2 : b.status ≠ "cancelled" := fun h => hf (Or.inr h)
        have ht : isTerminalStatus b.status = false := by
          simp [isTerminalStatus, hc, hf1, hf2]
        simp [poll_batch_status, hc, hf, ht, ih, List.takeWhile_cons, List.dropWhile_cons,
          Nat.mul_succ]
        omega

/-- Contents of the job-handle file `results/last_batch_id`: `none` when the
file is absent (Python `check_for_tmp_batch_id` returns `False`),
`some text` when it exists. -/
structure MainFS where
  handle : Option String
deriving DecidableEq

/-- `check_for_tmp_batch_id` (src/create_anki_cards.py lines 46-54): returns
the file contents when the handle file exists, `none` otherwise. -/
def check_for_tmp_batch_id (fs : MainFS) : Option String :=
  fs.handle

/-- The externally visible actions of the batch section of `main`:
submitting a new batch job (`create_jsonl_file` + `upload_jsonl_file` +
`client.batches.create`), persisting the job id to the handle file (the
write inside `create_batch_request`, before it returns), and invoking
`poll_batch_status` on a job id. -/
inductive BatchEvent where
  | submit (jobId : String)
  | storeHandle (jobId : String)
  | poll (jobId : String)
deriving DecidableEq

/-- The batch section of `main` (src/create_anki_cards.py lines 333-341),
reached when there are pending transcripts and the user confirms:
`batch_id = check_for_tmp_batch_id(); if not batch_id: batch_id =
create_new_batch(...)` then `poll_batch_status(batch_id)`. A missing handle,
or one holding the empty (falsy) string, triggers `create_new_batch`, whose
`create_batch_request` writes the fresh id to the handle file before
returning; otherwise the stored id is polled directly. Returns the file
state after the section, the ordered action trace, and the polled job id. -/
def mainBatchSection (fs : MainFS) (freshId : String) : MainFS × List BatchEvent × String :=
  match check_for_tmp_batch_id fs with
  | some j =>
    if j = "" then
      (⟨some freshId⟩, [.submit freshId, .storeHandle freshId, .poll freshId], freshId)
    else (fs, [.poll j], j)
  | none =>
    (⟨some freshId⟩, [.submit freshId, .storeHandle freshId, .poll freshId], freshId)

/-- C6: resume-lock semantics. (1) When the handle file holds a non-empty
job id, the run polls exactly that id, performs no submit and no store, and
leaves the handle unchanged. (2) When no handle exists, the run submits a
new batch and persists its id to the handle file strictly before polling
begins (visible in the trace order), polling the fresh id. (3) Crash
resumption: from the state reached right after the store — handle holding
the fresh id — a later run polls that same id and never submits again. -/
theorem c6_resume_lock (fs : MainFS) (freshId : String) :
    (∀ j, fs.handle = some j → j ≠ "" →
       mainBatchSection fs freshId = (fs, [.poll j], j))
    ∧ (fs.handle = none →
       mainBatchSection fs freshId
         = (⟨some freshId⟩, [.submit freshId, .storeHandle freshId, .poll freshId], freshId))
    ∧ (∀ fresh2, freshId ≠ "" →
       mainBatchSection ⟨some freshId⟩ fresh2
         = (⟨some freshId⟩, [.poll freshId], freshId)) := by
  refine ⟨?_, ?_, ?_⟩
  · intro j hj hne
    simp [mainBatchSection, check_for_tmp_batch_id, hj, hne]
  · intro h
    simp [mainBatchSection, check_for_tmp_batch_id, h]
  · intro fresh2 hne
    simp [mainBatchSection, check_for_tmp_batch_id, hne]

/-- C6 witness: a run starting with the stored non-empty handle `"job-1"`
polls it and submits nothing, even with a fresh id available. -/
theorem c6_resume_lock_witness :
    (some "job-1" : Option String) = some "job-1" ∧ "job-1" ≠ ""
      ∧ mainBatchSection ⟨some "job-1"⟩ "job-2"
          = (⟨some "job-1"⟩, [.poll "job-1"], "job-1") :=
  ⟨rfl, by decide, (c6_resume_lock ⟨some "job-1"⟩ "job-2").1 "job-1" rfl (by decide)⟩

/-- Local files touched by `download_batch_results`: the job-handle file and
the batch-output artifact `results/batch_output.jsonl` (its full text, or
`none` before it is first written). -/
structure FetchFS where
  handle : Option String
  batchOutput : Option String
deriving DecidableEq

/-- Actions of the result fetcher, in execution order. -/
inductive FetchEvent where
  | writeOutput (text : String)
  | clearHandle
deriving DecidableEq

/-- `remove_batch_id_tmp_file` (src/create_anki_cards.py lines 56-65):
deletes the handle file; a missing file is not an error (idempotent clear). -/
def remove_batch_id_tmp_file (fs : FetchFS) : FetchFS :=
  { fs with handle := none }

/-- `download_batch_results` (src/create_anki_cards.py lines 179-209,
through line 201): fetch the output file content, write it in full to the
local batch-output artifact, then delete the handle file via
`remove_batch_id_tmp_file`. `writeOk` models whether the local write
succeeds; a failed write raises (third component `true`), leaving both files
untouched — the handle is only cleared after the successful write. (The
subsequent re-read and JSON decode of the written file, lines 203-209,
happen after the clear and do not modify either file.) -/
def download_batch_results (fileText : String) (writeOk : Bool) (fs : FetchFS) :
    FetchFS × List FetchEvent × Bool :=
  if writeOk then
    let fs1 := { fs with batchOutput := some fileText }
    let fs2 := remove_batch_id_tmp_file fs1
    (fs2, [.writeOutput fileText, .clearHandle], false)
  else
    (fs, [], true)

/-- C7: persist-before-clear. On a successful write, the full raw output
text is persisted to the batch-output artifact and only then is the handle
cleared — the trace is the write strictly followed by the clear. If
persisting raises, the run aborts with the handle file (and everything else)
left exactly in place, so the next run resumes polling the same job. -/
theorem c7_persist_before_clear (fileText : String) (fs : FetchFS) :
    download_batch_results fileText true fs
        = (⟨none, some fileText⟩, [.writeOutput fileText, .clearHandle], false)
    ∧ download_batch_results fileText false fs = (fs, [], true) :=
  ⟨rfl, rfl⟩

/-- Splitting the record loop of `process_batch_results` at an append
point: the state reached after the first lines feeds the rest. -/
theorem processRecords_append (xs ys : List (Option BatchRecord)) (st : PBState) :
    processRecords st (xs ++ ys) =
      match processRecords st xs with
      | .error e => .error e
      | .ok st2 => processRecords st2 ys := by
  induction xs generalizing st with
  | nil => rfl
  | cons x xs ih =>
    simp only [List.cons_append, processRecords]
    cases processLine st x with
    | error e => rfl
    | ok st2 => exact ih st2

/-- C9: a record whose `status_code` is not 200 contributes nothing — no
entry and no points — regardless of its content or position: deleting it
from the batch-output file leaves the parsed result (and any error) exactly
unchanged, because the entire parsing block of the source sits inside the
`status_code == 200` branch and such a record touches neither the result
dict nor the carried parser state. -/
theorem c9_non200_skipped (pre post : List (Option BatchRecord)) (r : BatchRecord)
    (h : r.status_code ≠ 200) :
    process_batch_results (pre ++ some r :: post) = process_batch_results (pre ++ post) := by
  have hstep : ∀ st : PBState, processRecords st (some r :: post) = processRecords st post := by
    intro st
    simp only [processRecords, processLine, if_neg h]
  unfold process_batch_results
  rw [processRecords_append, processRecords_append]
  cases processRecords ⟨[], false, none⟩ pre with
  | error e => rfl
  | ok st2 => simp only [hstep]

/-- C9 witness: a lone status-500 record with parseable content yields the
same (empty) result as an empty file. -/
theorem c9_non200_skipped_witness :
    (500 : Nat) ≠ 200
      ∧ process_batch_results [some ⟨"e-1", 500, ["1. A\n2. B"]⟩] = process_batch_results [] :=
  ⟨by decide, c9_non200_skipped [] [] ⟨"e-1", 500, ["1. A\n2. B"]⟩ (by decide)⟩

/-- C10: for a status-200 record, the `for choice in choices` loop rebinds
`content` at every iteration, so only the last choice's message content is
segmented: replacing the choices array by its last element alone leaves the
whole parse unchanged — the earlier choices contribute nothing. -/
theorem c10_last_choice_wins (pre post : List (Option BatchRecord)) (cid : String)
    (cs : List String) (c : String) :
    process_batch_results (pre ++ some ⟨cid, 200, cs ++ [c]⟩ :: post)
      = process_batch_results (pre ++ some ⟨cid, 200, [c]⟩ :: post) := by
  have hline : ∀ st : PBState,
      processLine st (some ⟨cid, 200, cs ++ [c]⟩) = processLine st (some ⟨cid, 200, [c]⟩) := by
    intro st
    simp only [processLine, lastChoiceContent, List.foldl_append, List.foldl_cons,
      List.foldl_nil]
  unfold process_batch_results
  rw [processRecords_append, processRecords_append]
  cases processRecords ⟨[], false, none⟩ pre with
  | error e => rfl
  | ok st2 => simp only [processRecords, hline]

/-- A content has no dash line before its first numbered line: scanning the
split lines, every stripped line up to (and excluding) the first one that
matches the numbered-point grammar neither is blank-skipped into a dash nor
starts with a dash. Such contents are parsed independently of the
`is_first_subitem` flag carried over from earlier records. -/
def noDashBeforeNum : List (List Char) → Bool
  | [] => true
  | l :: rest =>
    let s := pyStripL l
    if (matchNumL s).isSome then true
    else if startsWithDash s then false
    else noDashBeforeNum rest

/-- The parsed point sequence depends only on the line list and the shared
`points`/`cur` components: it is independent of the incoming
`is_first_subitem` flag and of the `content` variable, provided no dash
line occurs before the first numbered line (the only reader of the flag). -/
theorem segFold_points_flag_indep (lines : List (List Char)) :
    ∀ (p c : List (List Char)) (f1 f2 : Bool) (v1 v2 : List Char),
      noDashBeforeNum lines = true →
      (segFold ⟨p, c, f1, v1⟩ lines).points = (segFold ⟨p, c, f2, v2⟩ lines).points := by
  induction lines with
  | nil => intro p c f1 f2 v1 v2 _; rfl
  | cons l rest ih =>
    intro p c f1 f2 v1 v2 h
    have hstep : ∀ (f : Bool) (v : List Char),
        segFold ⟨p, c, f, v⟩ (l :: rest) = segFold (segLine ⟨p, c, f, v⟩ l) rest := by
      intro f v; rfl
    rw [hstep, hstep]
    by_cases hs : pyStripL l = []
    · have e : ∀ (f : Bool) (v : List Char), segLine ⟨p, c, f, v⟩ l = ⟨p, c, f, v⟩ := by
        intro f v; simp [segLine, hs]
      rw [e, e]
      have hrest : noDashBeforeNum rest = true := by
        simpa [noDashBeforeNum, hs, matchNumL, startsWithDash] using h
      exact ih p c f1 f2 v1 v2 hrest
    · by_cases hm : (matchNumL (pyStripL l)).isSome
      · obtain ⟨g, hg⟩ := Option.isSome_iff_exists.mp hm
        have e : ∀ (f : Bool) (v : List Char),
            segLine ⟨p, c, f, v⟩ l
              = ⟨if c = [] then p else p ++ [joinNL c], [pyStripL g], true, pyStripL g⟩ := by
          intro f v; simp [segLine, hs, hg]
        rw [e, e]
      · have hm2 : matchNumL (pyStripL l) = none := Option.not_isSome_iff_eq_none.mp hm
        by_cases hd : startsWithDash (pyStripL l) = true
        · simp [noDashBeforeNum, hm2, hd] at h
        · have hd2 : startsWithDash (pyStripL l) = false := by
            simpa using hd
          have e : ∀ (f : Bool) (v : List Char),
              segLine ⟨p, c, f, v⟩ l = ⟨p, c ++ [pyStripL l], f, v⟩ := by
            intro f v; simp [segLine, hs, hm2, hd2]
          rw [e, e]
          have hrest : noDashBeforeNum rest = true := by
            simpa [noDashBeforeNum, hm2, hd2] using h
          exact ih p (c ++ [pyStripL l]) f1 f2 v1 v2 hrest

/-- C4 amended: the parser is deterministic but not self-contained per
record — its output is a function of the record's content AND the
`is_first_subitem` flag carried over from earlier records (see the
counterexample). The flag's only reader is a dash line not preceded by a
numbered line, so for every content with no dash line before its first
numbered line the parse is independent of the carried flag, and two records
with such identical contents in one batch-output file parse identically. -/
theorem c4_flag_independence_amended (f1 f2 : Bool) (content : String)
    (h : noDashBeforeNum (splitNL content.toList) = true) :
    parsePoints f1 content = parsePoints f2 content := by
  unfold parsePoints segmentL
  exact congrArg (List.map String.mk)
    (segFold_points_flag_indep (splitNL content.toList) [] [] f1 f2
      content.toList content.toList h)

/-- C4 amended witness: `"1. A\n- x"` has its dash line after the first
numbered line, so both flag values give the same parse. -/
theorem c4_flag_independence_amended_witness :
    noDashBeforeNum (splitNL ("1. A\n- x").toList) = true
      ∧ parsePoints true "1. A\n- x" = parsePoints false "1. A\n- x" :=
  ⟨by decide, c4_flag_independence_amended true false "1. A\n- x" (by decide)⟩

/-- The line loop only ever appends to `points`: folding from a state whose
`points` is `p` yields `p` followed by whatever the same fold produces from
an empty `points` (the other components behave identically). -/
theorem segFold_points_frame (lines : List (List Char)) :
    ∀ (p c : List (List Char)) (f : Bool) (v : List Char),
      (segFold ⟨p, c, f, v⟩ lines).points = p ++ (segFold ⟨[], c, f, v⟩ lines).points := by
  induction lines with
  | nil => intro p c f v; simp [segFold]
  | cons l rest ih =>
    intro p c f v
    have hstep : ∀ (q : List (List Char)),
        segFold ⟨q, c, f, v⟩ (l :: rest) = segFold (segLine ⟨q, c, f, v⟩ l) rest := by
      intro q; rfl
    rw [hstep, hstep]
    by_cases hs : pyStripL l = []
    · have e : ∀ (q : List (List Char)), segLine ⟨q, c, f, v⟩ l = ⟨q, c, f, v⟩ := by
        intro q; simp [segLine, hs]
      rw [e, e]
      exact ih p c f v
    · cases hm : matchNumL (pyStripL l) with
      | some g =>
        have e : ∀ (q : List (List Char)),
            segLine ⟨q, c, f, v⟩ l
              = ⟨if c = [] then q else q ++ [joinNL c], [pyStripL g], true, pyStripL g⟩ := by
          intro q; simp [segLine, hs, hm]
        rw [e, e]
        by_cases hc : c = []
        · simp only [hc, if_pos rfl]
          exact ih p [pyStripL g] true (pyStripL g)
        · simp only [if_neg hc, List.nil_append]
          rw [ih (p ++ [joinNL c]) [pyStripL g] true (pyStripL g),
            ih [joinNL c] [pyStripL g] true (pyStripL g)]
          simp [List.append_assoc]
      | none =>
        by_cases hd : startsWithDash (pyStripL l) = true
        · by_cases hf : f = true
          · have e : ∀ (q : List (List Char)),
                segLine ⟨q, c, f, v⟩ l = ⟨q, c ++ [[], pyStripL l], false, v⟩ := by
              intro q; simp [segLine, hs, hm, hd, hf]
            rw [e, e]
            exact ih p (c ++ [[], pyStripL l]) false v
          · have hf2 : f = false := by simpa using hf
            have e : ∀ (q : List (List Char)),
                segLine ⟨q, c, f, v⟩ l = ⟨q, c ++ [pyStripL l], f, v⟩ := by
              intro q; simp [segLine, hs, hm, hd, hf2]
            rw [e, e]
            exact ih p (c ++ [pyStripL l]) f v
        · have hd2 : startsWithDash (pyStripL l) = false := by simpa using hd
          have e : ∀ (q : List (List Char)),
              segLine ⟨q, c, f, v⟩ l = ⟨q, c ++ [pyStripL l], f, v⟩ := by
            intro q; simp [segLine, hs, hm, hd2]
          rw [e, e]
          exact ih p (c ++ [pyStripL l]) f v

/-- Folding the line loop over lines none of which matches the numbered
grammar: `points` and the `content` variable are untouched, and the
accumulator only grows — strictly, as soon as one of the lines is
non-blank after stripping. -/
theorem segFold_noNum (pre : List (List Char)) :
    ∀ (st : SegSt), (∀ l ∈ pre, matchNumL (pyStripL l) = none) →
      (segFold st pre).points = st.points
      ∧ (segFold st pre).cv = st.cv
      ∧ ∃ t, (segFold st pre).cur = st.cur ++ t
          ∧ ((∃ l ∈ pre, pyStripL l ≠ []) → t ≠ []) := by
  induction pre with
  | nil =>
    intro st _
    refine ⟨rfl, rfl, [], by simp [segFold], ?_⟩
    rintro ⟨l, hl, _⟩
    exact absurd hl (List.not_mem_nil l)
  | cons l pre ih =>
    intro st h
    have hl : matchNumL (pyStripL l) = none := h l (List.mem_cons_self l pre)
    have hpre : ∀ l2 ∈ pre, matchNumL (pyStripL l2) = none := by
      intro l2 hl2; exact h l2 (List.mem_cons_of_mem l hl2)
    have hstep : segFold st (l :: pre) = segFold (segLine st l) pre := rfl
    by_cases hs : pyStripL l = []
    · have e : segLine st l = st := by simp [segLine, hs]
      rw [hstep, e]
      obtain ⟨h1, h2, t, h3, h4⟩ := ih st hpre
      refine ⟨h1, h2, t, h3, ?_⟩
      rintro ⟨l2, hl2, hne2⟩
      rcases List.mem_cons.mp hl2 with rfl | hmem
      · exact absurd hs hne2
      · exact h4 ⟨l2, hmem, hne2⟩
    · by_cases hd : startsWithDash (pyStripL l) = true
      · by_cases hf : st.flag = true
        · have e2 : segLine st l = { st with cur := st.cur ++ [[], pyStripL l], flag := false } := by
            simp [segLine, hs, hl, hd, hf]
          rw [hstep, e2]
          obtain ⟨h1, h2, t, h3, _⟩ := ih _ hpre
          refine ⟨h1, h2, [[], pyStripL l] ++ t, by simpa [List.append_assoc] using h3, ?_⟩
          intro _; simp
        · have hf2 : st.flag = false := by simpa using hf
          have e2 : segLine st l = { st with cur := st.cur ++ [pyStripL l] } := by
            simp [segLine, hs, hl, hd, hf2]
          rw [hstep, e2]
          obtain ⟨h1, h2, t, h3, _⟩ := ih _ hpre
          refine ⟨h1, h2, [pyStripL l] ++ t, by simpa [List.append_assoc] using h3, ?_⟩
          intro _; simp
      · have hd2 : startsWithDash (pyStripL l) = false := by simpa using hd
        have e2 : segLine st l = { st with cur := st.cur ++ [pyStripL l] } := by
          simp [segLine, hs, hl, hd2]
        rw [hstep, e2]
        obtain ⟨h1, h2, t, h3, _⟩ := ih _ hpre
        refine ⟨h1, h2, [pyStripL l] ++ t, by simpa [List.append_assoc] using h3, ?_⟩
        intro _; simp

/-- C3 amended: lines preceding the first numbered line are NOT discarded.
For every content split as non-numbered lines `pre` (at least one of them
non-blank after stripping) followed by a numbered line and the rest, the
parse equals the accumulated preamble — flushed as one point of its own —
prepended to exactly the points that the content without the preamble would
produce. In particular the preamble text is the first element of the point
sequence and never appears inside any numbered point. -/
theorem c3_preamble_amended (flag : Bool) (cv : List Char)
    (pre rest : List (List Char)) (numLine : List Char) (g : List Char)
    (hpre : ∀ l ∈ pre, matchNumL (pyStripL l) = none)
    (hnb : ∃ l ∈ pre, pyStripL l ≠ [])
    (hnum : matchNumL (pyStripL numLine) = some g) :
    (segFold ⟨[], [], flag, cv⟩ (pre ++ numLine :: rest)).points
      = joinNL ((segFold ⟨[], [], flag, cv⟩ pre).cur)
          :: (segFold ⟨[], [], flag, cv⟩ (numLine :: rest)).points := by
  have hne : pyStripL numLine ≠ [] := by
    intro h0
    rw [h0] at hnum
    exact Option.noConfusion hnum
  obtain ⟨hpts, hcv, t, hcur, hnbt⟩ := segFold_noNum pre ⟨[], [], flag, cv⟩ hpre
  have ht : t ≠ [] := hnbt hnb
  have happ : segFold ⟨[], [], flag, cv⟩ (pre ++ numLine :: rest)
      = segFold (segFold ⟨[], [], flag, cv⟩ pre) (numLine :: rest) := by
    simp [segFold, List.foldl_append]
  set stP := segFold ⟨[], [], flag, cv⟩ pre with hstP
  have hcurP : stP.cur = t := by simpa using hcur
  have hcurne : stP.cur ≠ [] := by rw [hcurP]; exact ht
  have e1 : segLine stP numLine
      = ⟨stP.points ++ [joinNL stP.cur], [pyStripL g], true, pyStripL g⟩ := by
    simp [segLine, hne, hnum, hcurne]
  have e2 : segLine ⟨[], [], flag, cv⟩ numLine = ⟨[], [pyStripL g], true, pyStripL g⟩ := by
    simp [segLine, hne, hnum]
  have hstep1 : segFold stP (numLine :: rest) = segFold (segLine stP numLine) rest := rfl
  have hstep2 : segFold ⟨[], [], flag, cv⟩ (numLine :: rest)
      = segFold (segLine ⟨[], [], flag, cv⟩ numLine) rest := rfl
  rw [happ, hstep1, e1, hstep2, e2]
  have hpts2 : stP.points = [] := hpts
  rw [hpts2]
  rw [segFold_points_frame rest ([] ++ [joinNL stP.cur]) [pyStripL g] true (pyStripL g)]
  simp

/-- C3 amended witness: for the content split `["note"] ++ "1. Alpha" :: []`
the preamble line `"note"` becomes the first point, followed by what
`"1. Alpha"` alone would produce. -/
theorem c3_preamble_amended_witness :
    (∀ l ∈ [("note").toList], matchNumL (pyStripL l) = none)
      ∧ (∃ l ∈ [("note").toList], pyStripL l ≠ [])
      ∧ matchNumL (pyStripL ("1. Alpha").toList) = some ("Alpha").toList
      ∧ (segFold ⟨[], [], false, []⟩ ([("note").toList] ++ ("1. Alpha").toList :: [])).points
          = joinNL ((segFold ⟨[], [], false, []⟩ [("note").toList]).cur)
              :: (segFold ⟨[], [], false, []⟩ (("1. Alpha").toList :: [])).points :=
  ⟨by decide, by decide, by decide,
    c3_preamble_amended false [] [("note").toList] [] ("1. Alpha").toList ("Alpha").toList
      (by decide) (by decide) (by decide)⟩

/-- `check_missing_results` (src/create_anki_cards.py lines 104-112): the
metadata episode ids with no entry in the loaded result store. The source
materializes a set difference (duplicates collapsed, order unspecified);
only membership and emptiness of the result are consumed downstream, which
the filtered list preserves. -/
def check_missing_results (metadataIds : List String)
    (results : List (String × List String)) : List String :=
  metadataIds.filter (fun id => (lookupD id results).isNone)

/-- The episode ids `main` (lines 320-327) will submit: missing ids whose
transcript file exists (`load_transcript` returns text) — the keys of the
`new_transcripts` dict. -/
def newTranscriptIds (metadataIds : List String) (results : List (String × List String))
    (hasTranscript : String → Bool) : List String :=
  (check_missing_results metadataIds results).filter hasTranscript

/-- Durable state across runs: the result-store file
`results/flashcard_results.json` (as an insertion-ordered association list,
the JSON object), and the in-flight job: the handle file holding the job id
together with the remote service's (ghost) record of which episode ids the
job's tasks carry — the latter lives at the provider, not in the file, and
is what the fetched output's `custom_id`s range over. -/
structure SysState where
  store : List (String × List String)
  handle : Option (String × List String)

/-- The per-run environment of `main`: the metadata ids, transcript
availability, the user's confirmation, the fresh job id the remote would
assign on submission, whether polling ends in a terminal failure
(`RuntimeError`), whether writing the batch-output artifact succeeds, and
the remote's per-task response (status code and choices contents). -/
structure RunEnv where
  metadataIds : List String
  hasTranscript : String → Bool
  confirm : Bool
  freshJobId : String
  pollFails : Bool
  writeOk : Bool
  recordStatus : String → Nat
  recordChoices : String → List String

/-- The batch-output file of a job, per the batch API contract the spec
states (one record per submitted task, echoing its `custom_id`): one
well-formed record per task id, with environment-chosen status and
choices. -/
def jobRecords (env : RunEnv) (tids : List String) : List (Option BatchRecord) :=
  tids.map (fun id => some ⟨id, env.recordStatus id, env.recordChoices id⟩)

/-- The handle check of `main` (lines 335-338): `batch_id =
check_for_tmp_batch_id(); if not batch_id: batch_id =
create_new_batch(new_transcripts)`. A missing handle or a falsy (empty)
stored id submits the pending ids as a new job and persists the fresh id;
otherwise the stored job (with its remotely recorded task ids) is used.
Returns the state after this step, the task ids of the job about to be
polled, and whether a submission happened. -/
def resolveJob (env : RunEnv) (s : SysState) (pending : List String) :
    SysState × List String × Bool :=
  match s.handle with
  | some (j, jt) =>
    if j = "" then ({ store := s.store, handle := some (env.freshJobId, pending) }, pending, true)
    else (s, jt, false)
  | none => ({ store := s.store, handle := some (env.freshJobId, pending) }, pending, true)

/-- One run of `main` (src/create_anki_cards.py lines 305-361) at the level
of durable state: compute the pending ids; if none are ready (or the user
declines) nothing happens — no submission, and the result-store file is not
rewritten. Otherwise resolve the job (resume or submit), poll it
(`pollFails` models the fatal `RuntimeError`, which aborts the run with the
handle intact), download (`writeOk = false` models the write raising, again
leaving the handle intact), then parse — a `NameError` there aborts after
the handle was cleared, without saving — and finally
`results.update(ai_results); save_results(results)`. Returns the new state,
whether a batch was submitted, and whether the result-store file was
rewritten. -/
def runStep (env : RunEnv) (s : SysState) : SysState × Bool × Bool :=
  let pending := newTranscriptIds env.metadataIds s.store env.hasTranscript
  if pending = [] then (s, false, false)
  else if env.confirm then
    let r := resolveJob env s pending
    if env.pollFails then (r.1, r.2.2, false)
    else if env.writeOk = false then (r.1, r.2.2, false)
    else
      match process_batch_results (jobRecords env r.2.1) with
      | .error _ => ({ store := r.1.store, handle := none }, r.2.2, false)
      | .ok ai => ({ store := dictUpdate r.1.store ai, handle := none }, r.2.2, true)
  else (s, false, false)

/-- Reachability invariant coupling the two durable artifacts: while a
handle with a non-empty job id is persisted, none of that job's task ids
has an entry in the result store (new jobs are built from the missing set,
and the store only changes in a run that also clears the handle). -/
def HandleFresh (s : SysState) : Prop :=
  ∀ j tids, s.handle = some (j, tids) → j ≠ "" → ∀ id ∈ tids, lookupD id s.store = none

/-- A key absent from the inserted entry is looked up unchanged. -/
theorem lookupD_dictInsert_ne (k k0 : String) (v : List String)
    (d : List (String × List String)) (h : k0 ≠ k) :
    lookupD k (dictInsert k0 v d) = lookupD k d := by
  induction d with
  | nil => simp [dictInsert, lookupD, h]
  | cons p rest ih =>
    obtain ⟨k2, v2⟩ := p
    by_cases h20 : k2 = k0
    · subst h20
      simp [dictInsert, lookupD, h]
    · simp only [dictInsert, if_neg h20]
      by_cases h2k : k2 = k
      · simp [lookupD, h2k]
      · simp [lookupD, h2k, ih]

/-- A key with no entry in the update dict survives `dict.update` with its
old value. -/
theorem lookupD_dictUpdate_none (k : String) (d ai : List (String × List String))
    (h : ∀ p ∈ ai, p.1 ≠ k) :
    lookupD k (dictUpdate d ai) = lookupD k d := by
  induction ai generalizing d with
  | nil => rfl
  | cons p rest ih =>
    have hstep : dictUpdate d (p :: rest) = dictUpdate (dictInsert p.1 p.2 d) rest := rfl
    rw [hstep, ih _ (fun q hq => h q (List.mem_cons_of_mem p hq)),
      lookupD_dictInsert_ne k p.1 p.2 d (h p (List.mem_cons_self p rest))]

/-- A key found after an insertion was either the inserted key or already
present. -/
theorem lookupD_dictInsert_cases (k k0 : String) (v : List String)
    (d : List (String × List String)) (h : lookupD k (dictInsert k0 v d) ≠ none) :
    k = k0 ∨ lookupD k d ≠ none := by
  induction d with
  | nil =>
    by_cases hk : k0 = k
    · exact Or.inl hk.symm
    · simp [dictInsert, lookupD, hk] at h
  | cons p rest ih =>
    obtain ⟨k2, v2⟩ := p
    by_cases h20 : k2 = k0
    · subst h20
      by_cases hk : k2 = k
      · exact Or.inr (by simp [lookupD, hk])
      · simp only [dictInsert, if_pos rfl, lookupD, if_neg hk] at h
        rcases h with h
        · exact Or.inr (by simp [lookupD, hk]; exact h)
    · simp only [dictInsert, if_neg h20] at h
      by_cases h2k : k2 = k
      · exact Or.inr (by simp [lookupD, h2k])
      · simp only [lookupD, if_neg h2k] at h
        rcases ih h with h1 | h2
        · exact Or.inl h1
        · exact Or.inr (by simp [lookupD, h2k]; exact h2)

/-- Absence of an entry is exactly every key differing. -/
theorem lookupD_eq_none_iff (k : String) (d : List (String × List String)) :
    lookupD k d = none ↔ ∀ p ∈ d, p.1 ≠ k := by
  induction d with
  | nil => simp [lookupD]
  | cons p rest ih =>
    obtain ⟨k2, v2⟩ := p
    by_cases h2k : k2 = k
    · simp [lookupD, h2k]
    · simp [lookupD, h2k, ih]

/-- Every key of the parser state after the record loop was already present
or is the `custom_id` of one of the processed records. -/
theorem processRecords_keys (recs : List (Option BatchRecord)) :
    ∀ (st st2 : PBState), processRecords st recs = .ok st2 →
      ∀ k, lookupD k st2.result ≠ none →
        lookupD k st.result ≠ none
          ∨ k ∈ recs.filterMap (fun o => o.map BatchRecord.custom_id) := by
  induction recs with
  | nil =>
    intro st st2 h k hk
    have hst : st = st2 := by simpa [processRecords] using h
    rw [hst]
    exact Or.inl hk
  | cons rec recs ih =>
    intro st st2 h k hk
    simp only [processRecords] at h
    cases hpl : processLine st rec with
    | error e => rw [hpl] at h; exact absurd h (by simp)
    | ok stm =>
      rw [hpl] at h
      rcases ih stm st2 h k hk with hin | hmem
      · cases rec with
        | none =>
          have hst : st = stm := by simpa [processLine] using hpl
          rw [hst]
          exact Or.inl hin
        | some rb =>
          by_cases hsc : rb.status_code = 200
          · cases hlc : lastChoiceContent st.cv rb.choices with
            | none => simp [processLine, hsc, hlc] at hpl
            | some content =>
              have hst : stm.result
                  = dictInsert rb.custom_id
                      ((segmentL st.flag content).points.map String.mk) st.result := by
                simp only [processLine, if_pos hsc, hlc] at hpl
                injection hpl with h2
                rw [← h2]
              rw [hst] at hin
              rcases lookupD_dictInsert_cases k rb.custom_id _ st.result hin with hk0 | hold
              · subst hk0
                exact Or.inr (by simp [List.filterMap_cons])
              · exact Or.inl hold
          · have hst : st = stm := by simpa [processLine, hsc] using hpl
            rw [hst]
            exact Or.inl hin
      · cases rec with
        | none => exact Or.inr (by simpa [List.filterMap_cons] using hmem)
        | some rb =>
          refine Or.inr ?_
          have hfm : (List.filterMap (fun o => Option.map BatchRecord.custom_id o)
                (some rb :: recs))
              = rb.custom_id
                  :: List.filterMap (fun o => Option.map BatchRecord.custom_id o) recs := by
            simp [List.filterMap_cons]
          rw [hfm]
          exact List.mem_cons_of_mem _ hmem

/-- Every key of a successful `process_batch_results` output is the
`custom_id` of one of the file's records. -/
theorem process_batch_results_keys (recs : List (Option BatchRecord))
    (ai : List (String × List String)) (h : process_batch_results recs = .ok ai)
    (k : String) (hk : lookupD k ai ≠ none) :
    k ∈ recs.filterMap (fun o => o.map BatchRecord.custom_id) := by
  unfold process_batch_results at h
  cases hpr : processRecords ⟨[], false, none⟩ recs with
  | error e => rw [hpr] at h; exact absurd h (by simp)
  | ok st =>
    rw [hpr] at h
    have hai : ai = st.result := by simpa using h.symm
    rcases processRecords_keys recs ⟨[], false, none⟩ st hpr k (hai ▸ hk) with h1 | h2
    · simp [lookupD] at h1
    · exact h2

/-- The `custom_id`s of a job's output records are exactly its task ids. -/
theorem jobRecords_cids (env : RunEnv) (tids : List String) :
    (jobRecords env tids).filterMap (fun o => o.map BatchRecord.custom_id) = tids := by
  induction tids with
  | nil => rfl
  | cons t ts ih =>
    simp only [jobRecords, List.map_cons, List.filterMap_cons] at ih ⊢
    simp only [Option.map_some']
    rw [ih]

/-- A pending id has no entry in the loaded store (it is missing by
construction). -/
theorem newTranscriptIds_lookup (m : List String) (res : List (String × List String))
    (ht : String → Bool) (id : String) (h : id ∈ newTranscriptIds m res ht) :
    lookupD id res = none := by
  unfold newTranscriptIds check_missing_results at h
  rcases List.mem_filter.mp h with ⟨h1, _⟩
  rcases List.mem_filter.mp h1 with ⟨_, h2⟩
  exact Option.isNone_iff_eq_none.mp h2

/-- C8: the result-store merge is monotonic and idle runs touch nothing.
For every run from a reachable state (one satisfying the handle/store
invariant, e.g. any state with no persisted handle): (1) every entry of the
loaded store is still present with its value in the store the run ends
with — `results.update(ai_results)` can only add keys, because a fresh
job's tasks are drawn from the missing set and a resumed job's tasks are
store-disjoint by the invariant, and the output's `custom_id`s range over
the job's tasks; (2) the invariant is preserved, so every chain of runs
stays monotonic; (3) when the pending set is empty (every metadata id has a
stored result, or no missing episode has a transcript) the run submits no
batch and does not rewrite the result-store file, leaving it byte-for-byte
unchanged. -/
theorem c8_store_monotonic (env : RunEnv) (s : SysState) (hInv : HandleFresh s) :
    (∀ k v, lookupD k s.store = some v → lookupD k (runStep env s).1.store = some v)
    ∧ HandleFresh (runStep env s).1
    ∧ (newTranscriptIds env.metadataIds s.store env.hasTranscript = [] →
        runStep env s = (s, false, false)) := by
  set pd := newTranscriptIds env.metadataIds s.store env.hasTranscript with hpd
  have hpendNone : ∀ id ∈ pd, lookupD id s.store = none := by
    intro id hid
    exact newTranscriptIds_lookup env.metadataIds s.store env.hasTranscript id hid
  by_cases hp : pd = []
  · have hrun : runStep env s = (s, false, false) := by
      simp [runStep, ← hpd, hp]
    rw [hrun]
    exact ⟨fun k v hk => hk, hInv, fun _ => rfl⟩
  · by_cases hc : env.confirm = true
    · set rr := resolveJob env s pd with hrr
      have hrstore : rr.1.store = s.store := by
        rw [hrr]
        rcases hh : s.handle with _ | ⟨j, jt⟩
        · simp [resolveJob, hh]
        · by_cases hj : j = "" <;> simp [resolveJob, hh, hj]
      have htids : ∀ id ∈ rr.2.1, lookupD id s.store = none := by
        rw [hrr]
        rcases hh : s.handle with _ | ⟨j, jt⟩
        · simpa [resolveJob, hh] using hpendNone
        · by_cases hj : j = ""
          · simpa [resolveJob, hh, hj] using hpendNone
          · simpa [resolveJob, hh, hj] using hInv j jt hh hj
      have hInvr : HandleFresh rr.1 := by
        rw [hrr]
        rcases hh : s.handle with _ | ⟨j, jt⟩
        · have e : resolveJob env s pd
              = ({ store := s.store, handle := some (env.freshJobId, pd) }, pd, true) := by
            simp [resolveJob, hh]
          rw [e]
          intro j2 t2 h2 hj2 id hid
          simp only [Option.some.injEq, Prod.mk.injEq] at h2
          obtain ⟨-, h2t⟩ := h2
          rw [← h2t] at hid
          exact hpendNone id hid
        · by_cases hj : j = ""
          · have e : resolveJob env s pd
                = ({ store := s.store, handle := some (env.freshJobId, pd) }, pd, true) := by
              simp [resolveJob, hh, hj]
            rw [e]
            intro j2 t2 h2 hj2 id hid
            simp only [Option.some.injEq, Prod.mk.injEq] at h2
            obtain ⟨-, h2t⟩ := h2
            rw [← h2t] at hid
            exact hpendNone id hid
          · have e : resolveJob env s pd = (s, jt, false) := by
              simp [resolveJob, hh, hj]
            rw [e]
            exact hInv
      by_cases hpf : env.pollFails = true
      · have hrun : runStep env s = (rr.1, rr.2.2, false) := by
          simp [runStep, ← hpd, hp, hc, ← hrr, hpf]
        rw [hrun]
        refine ⟨?_, hInvr, fun hcon => absurd hcon hp⟩
        intro k v hk
        show lookupD k rr.1.store = some v
        rw [hrstore]
        exact hk
      · have hpf2 : env.pollFails = false := by simpa using hpf
        by_cases hw : env.writeOk = false
        · have hrun : runStep env s = (rr.1, rr.2.2, false) := by
            simp [runStep, ← hpd, hp, hc, ← hrr, hpf2, hw]
          rw [hrun]
          refine ⟨?_, hInvr, fun hcon => absurd hcon hp⟩
          intro k v hk
          show lookupD k rr.1.store = some v
          rw [hrstore]
          exact hk
        · have hw2 : env.writeOk = true := by simpa using hw
          cases hres : process_batch_results (jobRecords env rr.2.1) with
          | error e =>
            have hrun : runStep env s
                = ({ store := rr.1.store, handle := none }, rr.2.2, false) := by
              simp [runStep, ← hpd, hp, hc, ← hrr, hpf2, hw2, hres]
            rw [hrun]
            refine ⟨?_, ?_, fun hcon => absurd hcon hp⟩
            · intro k v hk
              show lookupD k rr.1.store = some v
              rw [hrstore]
              exact hk
            · intro j2 t2 h2
              exact absurd h2 (by simp)
          | ok ai =>
            have hrun : runStep env s
                = ({ store := dictUpdate rr.1.store ai, handle := none }, rr.2.2, true) := by
              simp [runStep, ← hpd, hp, hc, ← hrr, hpf2, hw2, hres]
            rw [hrun]
            refine ⟨?_, ?_, fun hcon => absurd hcon hp⟩
            · intro k v hk
              show lookupD k (dictUpdate rr.1.store ai) = some v
              have hkai : ∀ p ∈ ai, p.1 ≠ k := by
                rw [← lookupD_eq_none_iff]
                by_contra hne
                have hmem : k ∈ rr.2.1 := by
                  have h3 := process_batch_results_keys (jobRecords env rr.2.1) ai hres k hne
                  rwa [jobRecords_cids] at h3
                have h4 := htids k hmem
                rw [hk] at h4
                exact Option.noConfusion h4
              rw [lookupD_dictUpdate_none k rr.1.store ai hkai, hrstore]
              exact hk
            · intro j2 t2 h2
              exact absurd h2 (by simp)
    · have hc2 : env.confirm = false := by simpa using hc
      have hrun : runStep env s = (s, false, false) := by
        simp [runStep, ← hpd, hp, hc2]
      rw [hrun]
      exact ⟨fun k v hk => hk, hInv, fun hcon => absurd hcon hp⟩

/-- C8 witness: a concrete run (store holding `e1`, no handle, `e2` pending
with a transcript, remote answering status 200) keeps the stored entry for
`e1` with its value. -/
theorem c8_store_monotonic_witness :
    HandleFresh { store := [("e1", ["p"])], handle := none }
      ∧ lookupD "e1"
          (runStep
            { metadataIds := ["e1", "e2"], hasTranscript := fun id => id == "e2",
              confirm := true, freshJobId := "job-1", pollFails := false,
              writeOk := true, recordStatus := fun _ => 200,
              recordChoices := fun _ => ["1. A\n2. B"] }
            { store := [("e1", ["p"])], handle := none }).1.store = some ["p"] := by
  have hInv : HandleFresh { store := [("e1", ["p"])], handle := none } := by
    intro j tids h
    exact absurd h (by simp)
  exact ⟨hInv, (c8_store_monotonic _ _ hInv).1 "e1" ["p"] rfl⟩
